import Mathlib

/-!
# Verification of the appointment-slot availability and validation engine

A shallow embedding, in Lean 4, of the scheduling core of the `companion`
booking-assistant repository:

* `src/core/scheduler.py` — class `Scheduler` (availability engine, booking
  validator, deposit calculator),
* `src/models/appointment.py` — class `AppointmentManager` (appointment store:
  date filtering, overlap check, free-slot computation),
* `src/config/settings.py` — the static configuration (`BUSINESS_HOURS`,
  `SERVICES`, `SLOT_DURATION`, `MIN_BOOKING_ADVANCE`, `MAX_BOOKING_ADVANCE`).

Modelling conventions, used throughout:

* Times of day are minutes since midnight (`Nat`, `0 ≤ t < 1440`).  The
  Python code passes times around as `"HH:MM"` strings; `strftime("%H:%M")` /
  `strptime(_, "%H:%M")` restricted to minutes `0 … 1439` is a bijection
  between those strings and minute values, so a slot list of minute values
  stands for the corresponding list of `"HH:MM"` strings.
* Full datetimes are minutes since the epoch of the proleptic Gregorian
  calendar (`toOrdinal d * 1440 + timeOfDay`), matching CPython's `datetime`
  ordering and `timedelta` arithmetic at minute resolution (the code only ever
  adds whole minutes, hours and days).
* Python exceptions are modelled with `Except PyErr`; an `.error` value marks
  a raised exception, `.ok` a normal return.
* External *string* inputs (request dates and times) keep their string form;
  `strptime` with the formats `"%Y-%m-%d"`, `"%H:%M"` and `"%Y-%m-%d %H:%M"`
  is modelled character by character after CPython's `_strptime` regular
  expressions (`%Y` = exactly four digits, `%m`/`%d`/`%H`/`%M` = one or two
  digits with the documented range alternations, followed by construction
  range checks, and a full-match requirement).
-/

/-- Numeric value of a digit character. -/
def digitVal (c : Char) : Nat := c.toNat - '0'.toNat

/-- Read exactly four digits (CPython `strptime` pattern for `%Y` is
`\d\d\d\d`), returning the value and the remaining input. -/
def readYear4 : List Char → Option (Nat × List Char)
  | c1 :: c2 :: c3 :: c4 :: rest =>
    if c1.isDigit && c2.isDigit && c3.isDigit && c4.isDigit then
      some (((digitVal c1 * 10 + digitVal c2) * 10 + digitVal c3) * 10 + digitVal c4, rest)
    else none
  | _ => none

/-- Read one or two digits the way a CPython `strptime` field alternation does:
prefer a two-digit match whose value lies in `[lo2, hi2]`, otherwise accept a
single digit whose value is at least `lo1`.  (`%m` is `lo2 = 1, hi2 = 12,
lo1 = 1`; `%d` is `1, 31, 1`; `%H` is `0, 23, 0`; `%M` is `0, 59, 0`.) -/
def readNum2 (lo2 hi2 lo1 : Nat) : List Char → Option (Nat × List Char)
  | c1 :: c2 :: rest =>
    if c1.isDigit && c2.isDigit
        && decide (lo2 ≤ digitVal c1 * 10 + digitVal c2)
        && decide (digitVal c1 * 10 + digitVal c2 ≤ hi2) then
      some (digitVal c1 * 10 + digitVal c2, rest)
    else if c1.isDigit && decide (lo1 ≤ digitVal c1) then
      some (digitVal c1, c2 :: rest)
    else none
  | [c1] =>
    if c1.isDigit && decide (lo1 ≤ digitVal c1) then some (digitVal c1, []) else none
  | [] => none

/-- Expect a literal character. -/
def expectChar (c : Char) : List Char → Option (List Char)
  | c1 :: rest => if c1 = c then some rest else none
  | [] => none

/-- Leap-year test of the Gregorian calendar (as `calendar.isleap`). -/
def isLeap (y : Nat) : Bool :=
  (y % 4 == 0) && (y % 100 != 0 || y % 400 == 0)

/-- Days in a month of a given year. -/
def daysInMonth (y m : Nat) : Nat :=
  if m = 1 then 31
  else if m = 2 then (if isLeap y then 29 else 28)
  else if m = 3 then 31
  else if m = 4 then 30
  else if m = 5 then 31
  else if m = 6 then 30
  else if m = 7 then 31
  else if m = 8 then 31
  else if m = 9 then 30
  else if m = 10 then 31
  else if m = 11 then 30
  else 31

/-- Days in the months strictly before month `m` of year `y` (CPython's
`_days_before_month`: the cumulative table plus one leap day for every month
after February of a leap year). -/
def daysBeforeMonth (y m : Nat) : Nat :=
  (if m = 1 then 0
   else if m = 2 then 31
   else if m = 3 then 59
   else if m = 4 then 90
   else if m = 5 then 120
   else if m = 6 then 151
   else if m = 7 then 181
   else if m = 8 then 212
   else if m = 9 then 243
   else if m = 10 then 273
   else if m = 11 then 304
   else 334)
  + (if 3 ≤ m ∧ isLeap y then 1 else 0)

/-- A parsed calendar date (the result of `strptime(_, "%Y-%m-%d")`). -/
structure PDate where
  year : Nat
  month : Nat
  day : Nat
deriving DecidableEq

/-- Proleptic Gregorian ordinal of a date, as `datetime.date.toordinal`:
day 1 is 0001-01-01. -/
def toOrdinal (d : PDate) : Nat :=
  365 * (d.year - 1) + (d.year - 1) / 4 + (d.year - 1) / 400 - (d.year - 1) / 100
    + daysBeforeMonth d.year d.month + d.day

/-- Weekdays, indexing the `BUSINESS_HOURS` dictionary (whose keys are the
lower-cased `strftime("%A")` names). -/
inductive Weekday where
  | monday | tuesday | wednesday | thursday | friday | saturday | sunday
deriving DecidableEq

/-- Weekday of a date; `datetime.weekday()` is `(toordinal - 1) % 7` with
Monday = 0. -/
def weekdayOf (d : PDate) : Weekday :=
  match (toOrdinal d - 1) % 7 with
  | 0 => .monday
  | 1 => .tuesday
  | 2 => .wednesday
  | 3 => .thursday
  | 4 => .friday
  | 5 => .saturday
  | _ => .sunday

/-- Capitalised `strftime("%A")` display name. -/
def dayName : Weekday → String
  | .monday => "Monday"
  | .tuesday => "Tuesday"
  | .wednesday => "Wednesday"
  | .thursday => "Thursday"
  | .friday => "Friday"
  | .saturday => "Saturday"
  | .sunday => "Sunday"

/-- A representable calendar date: what `datetime.date` can hold (year
`1 … 9999`) with a valid month and day. -/
def PDate.Valid (d : PDate) : Prop :=
  1 ≤ d.year ∧ d.year ≤ 9999 ∧ 1 ≤ d.month ∧ d.month ≤ 12 ∧
    1 ≤ d.day ∧ d.day ≤ daysInMonth d.year d.month

instance (d : PDate) : Decidable d.Valid := by
  unfold PDate.Valid; infer_instance

/-- The next calendar day (`date + timedelta(days=1)`). -/
def nextDay (d : PDate) : PDate :=
  if d.day < daysInMonth d.year d.month then ⟨d.year, d.month, d.day + 1⟩
  else if d.month < 12 then ⟨d.year, d.month + 1, 1⟩
  else ⟨d.year + 1, 1, 1⟩

/-- Calendar addition `date + timedelta(days=k)` for a whole number of days. -/
def addDays (d : PDate) (k : Nat) : PDate := nextDay^[k] d

/-- Two zero-padded decimal digits (`strftime` `%m`, `%d` for values below
100). -/
def pad2 (n : Nat) : List Char := [Nat.digitChar (n / 10), Nat.digitChar (n % 10)]

/-- Four zero-padded decimal digits (`strftime` `%Y` for values below
10000). -/
def pad4 (n : Nat) : List Char :=
  [Nat.digitChar (n / 1000), Nat.digitChar (n / 100 % 10),
   Nat.digitChar (n / 10 % 10), Nat.digitChar (n % 10)]

/-- Formatting `date.strftime("%Y-%m-%d")`. -/
def dateToStr (d : PDate) : String :=
  ⟨pad4 d.year ++ '-' :: pad2 d.month ++ '-' :: pad2 d.day⟩

/-- Parse the date part of `"%Y-%m-%d"`, returning the date and the rest of
the input.  Mirrors CPython: four year digits, `-`, one-or-two month digits
(values 1–12), `-`, one-or-two day digits (values 1–31), then the
`datetime` construction check (year ≥ 1, day ≤ days in month). -/
def parseDateCore (cs : List Char) : Option (PDate × List Char) := do
  let (y, cs) ← readYear4 cs
  let cs ← expectChar '-' cs
  let (m, cs) ← readNum2 1 12 1 cs
  let cs ← expectChar '-' cs
  let (d, cs) ← readNum2 1 31 1 cs
  if 1 ≤ y ∧ d ≤ daysInMonth y m then some (⟨y, m, d⟩, cs) else none

/-- Parse the time part of `"%H:%M"`, returning minutes since midnight and
the rest of the input. -/
def parseTimeCore (cs : List Char) : Option (Nat × List Char) := do
  let (h, cs) ← readNum2 0 23 0 cs
  let cs ← expectChar ':' cs
  let (mi, cs) ← readNum2 0 59 0 cs
  some (h * 60 + mi, cs)

/-- Model of `datetime.strptime(s, "%Y-%m-%d")`, as an `Option` (`none` = the
`ValueError` path).  The whole input must be consumed. -/
def parseDate (s : String) : Option PDate :=
  match parseDateCore s.toList with
  | some (d, []) => some d
  | _ => none

/-- Model of `datetime.strptime(s, "%H:%M")`, yielding minutes since midnight. -/
def parseClock (s : String) : Option Nat :=
  match parseTimeCore s.toList with
  | some (t, []) => some t
  | _ => none

/-- Model of the combined parse of f-string date and time with format `"%Y-%m-%d %H:%M"`: the two strings
joined by one space, parsed as a date, a space, and a time. -/
def parseDateTime (date time : String) : Option (PDate × Nat) :=
  match parseDateCore (date.toList ++ ' ' :: time.toList) with
  | some (d, cs) =>
    match expectChar ' ' cs with
    | some cs =>
      match parseTimeCore cs with
      | some (t, []) => some (d, t)
      | _ => none
    | none => none
  | none => none

/-! ## Configuration (`src/config/settings.py`) -/

/-- One entry of the `SERVICES` catalog (the fields the scheduler reads). -/
structure Service where
  name : String
  duration : Nat
  price : ℚ
deriving DecidableEq

/-- The static configuration the scheduler imports from `config.settings`.
`businessHours` models the `BUSINESS_HOURS` dict: a weekday key maps to its
`{"start": …, "end": …}` entry, an absent key to `none` (Python's
`.get(day_name, {})`). -/
structure Config where
  businessHours : Weekday → Option (String × String)
  services : List (String × Service)
  slotDuration : Nat
  minAdvance : Nat
  maxAdvance : Nat

/-- Dictionary lookup `SERVICES[service]` / `service in SERVICES`. -/
def lookupService (cfg : Config) (key : String) : Option Service :=
  (cfg.services.find? (fun p => p.1 == key)).map (·.2)

/-- The concrete values of `src/config/settings.py`. -/
def settings : Config where
  businessHours w :=
    match w with
    | .monday => some ("08:00", "20:00")
    | .tuesday => some ("08:00", "20:00")
    | .wednesday => some ("08:00", "20:00")
    | .thursday => some ("08:00", "20:00")
    | .friday => some ("08:00", "20:00")
    | .saturday => some ("09:00", "18:00")
    | .sunday => some ("10:00", "16:00")
  services :=
    [("general_assistance", ⟨"General Assistance", 60, 50⟩),
     ("administrative_support", ⟨"Administrative Support", 60, 65⟩),
     ("lifestyle_management", ⟨"Lifestyle Management", 90, 85⟩),
     ("event_planning", ⟨"Event Planning", 120, 150⟩),
     ("concierge_services", ⟨"Concierge Services", 60, 75⟩),
     ("senior_care_assistance", ⟨"Senior Care Assistance", 120, 100⟩)]
  slotDuration := 30
  minAdvance := 4
  maxAdvance := 30

/-! ## Appointment store (`src/models/appointment.py`) -/

/-- A stored appointment — the fields the availability engine reads.  The
dataclass's remaining fields (id, client phone, price, deposit and payment
data, timestamps, notes, therapist preference) are never consulted by the
functions modelled here.  `status` is the literal status string;
availability queries only compare it with `"cancelled"`. -/
structure Appointment where
  date : String
  time : String
  duration : Nat
  status : String
deriving DecidableEq

/-- The in-memory appointment list `self.appointments`. -/
abbrev Store := List Appointment

/-- A raised Python exception, by class. -/
inductive PyErr where
  | valueError
  | attributeError
deriving DecidableEq

namespace AppointmentManager

/-- Model of `AppointmentManager.get_appointments_by_date`: the appointments whose
`date` equals the query string and whose status is not `"cancelled"`, in
storage order. -/
def get_appointments_by_date (store : Store) (date : String) : List Appointment :=
  (store : List Appointment).filter (fun a => a.date == date && a.status != "cancelled")

/-- Model of `AppointmentManager.check_availability`.  The method first parses
`f"{date} {time}"` (raising `ValueError` on malformed input, since the
requested interval end is computed from it), and its next statement is

    end_time = start_time + datetime.timedelta(minutes=duration)

— but the module imports the *class* (`from datetime import datetime`), so
`datetime.timedelta` raises `AttributeError` unconditionally; everything
after that line (the intended half-open interval overlap loop) is dead
code.  The model returns the exception the CPython semantics produce. -/
def check_availability (store : Store) (date time : String) (duration : Nat) :
    Except PyErr Bool :=
  match get_appointments_by_date store date with
  | _ =>
    match parseDateTime date time with
    | none => .error .valueError
    | some _ => .error .attributeError

/-- The marking loop of `AppointmentManager.get_available_slots`:

    current = appt_start
    while current < appt_end:
        booked_slots.add(current.strftime("%H:%M"))
        current += dt.timedelta(minutes=slot_duration)

`cur` and `stop` are absolute minutes; each mark records the time of day
(`strftime("%H:%M")`, i.e. the minute value mod 1440).  The Python loop
diverges when `slot_duration = 0`; the model is restricted to a positive
slot duration by the loop guard. -/
def markSlots (slotDur : Nat) (cur stop : Nat) : List Nat :=
  if h : cur < stop ∧ 0 < slotDur then
    (cur % 1440) :: markSlots slotDur (cur + slotDur) stop
  else []
termination_by stop - cur
decreasing_by
  exact Nat.sub_lt_sub_left h.1 (Nat.lt_add_of_pos_right h.2)

/-- The accumulation of `booked_slots` over the date's non-cancelled
appointments: each appointment's start datetime is parsed
(`strptime(f"{appt.date} {appt.time}", "%Y-%m-%d %H:%M")`, raising
`ValueError` on a malformed record) and its interval is marked in
slot-duration strides.  Python collects the marks into a set used only for
membership tests; the model concatenates the mark lists. -/
def bookedSlots (slotDur : Nat) : List Appointment → Except PyErr (List Nat)
  | [] => .ok []
  | a :: rest =>
    match parseDateTime a.date a.time with
    | none => .error .valueError
    | some (d, t) => do
      let b ← bookedSlots slotDur rest
      .ok (markSlots slotDur (toOrdinal d * 1440 + t)
            (toOrdinal d * 1440 + t + a.duration) ++ b)

/-- The generation loop of `AppointmentManager.get_available_slots`:

    current = open_time
    while current + dt.timedelta(minutes=60) <= close_time:  # Minimum 60 min booking
        time_str = current.strftime("%H:%M")
        if time_str not in booked_slots:
            available_slots.append(time_str)
        current += dt.timedelta(minutes=slot_duration)

`cur` and `close` are times of day in minutes (`close < 1440`, so the
generated times never wrap and their `"HH:MM"` strings compare equal to a
booked mark iff the minute values are equal).  As in `markSlots`, the
`slot_duration = 0` divergence is excluded by the loop guard. -/
def genAvail (slotDur close : Nat) (booked : List Nat) (cur : Nat) : List Nat :=
  if h : cur + 60 ≤ close ∧ 0 < slotDur then
    if cur ∈ booked then genAvail slotDur close booked (cur + slotDur)
    else cur :: genAvail slotDur close booked (cur + slotDur)
  else []
termination_by close - cur
decreasing_by
  all_goals exact Nat.sub_lt_sub_left (by omega) (Nat.lt_add_of_pos_right h.2)

/-- Model of `AppointmentManager.get_available_slots(date, opening_time, closing_time,
slot_duration)`: mark the booked slots of the date's non-cancelled
appointments, then generate every grid time `open + k·slot_duration` with
`t + 60 ≤ close` that is not marked.  The opening/closing strings are parsed
after the marking loop (so a malformed stored appointment raises first), and
a malformed configuration time raises `ValueError`. -/
def get_available_slots (store : Store) (date opening closing : String)
    (slotDur : Nat) : Except PyErr (List Nat) := do
  let booked ← bookedSlots slotDur (get_appointments_by_date store date)
  match parseClock opening with
  | none => .error .valueError
  | some o =>
    match parseClock closing with
    | none => .error .valueError
    | some c => .ok (genAvail slotDur c booked o)

end AppointmentManager

/-! ## Scheduler (`src/core/scheduler.py`) -/

namespace Scheduler

/-- Model of `Scheduler.is_business_day`:
`BUSINESS_HOURS.get(day_name, {}).get("start") != "closed"`.  A missing
weekday entry yields `None`, which differs from `"closed"`, hence counts as
a business day. -/
def is_business_day (cfg : Config) (w : Weekday) : Bool :=
  match cfg.businessHours w with
  | some hours => hours.1 != "closed"
  | none => true

/-- Model of `Scheduler.get_business_hours`: the weekday's configured
`("start", "end")` strings, with defaults `("09:00", "20:00")` for a missing
entry. -/
def get_business_hours (cfg : Config) (w : Weekday) : String × String :=
  match cfg.businessHours w with
  | some hours => hours
  | none => ("09:00", "20:00")

/-- Model of `Scheduler.is_valid_booking_time`: with `now` taken as a parameter
(`datetime.now()` in the code), the requested datetime must satisfy
`now + timedelta(hours=MIN_BOOKING_ADVANCE) ≤ when` and
`when ≤ now + timedelta(days=MAX_BOOKING_ADVANCE)`.  Datetimes are absolute
minutes. -/
def is_valid_booking_time (cfg : Config) (now when : Nat) : Bool :=
  decide (now + 60 * cfg.minAdvance ≤ when) && decide (when ≤ now + 1440 * cfg.maxAdvance)

/-- Model of `Scheduler.is_within_business_hours` for a datetime with date `d` and
time of day `t`: `False` on a non-business day, otherwise
`opening_time ≤ t < closing_time` after parsing the configured strings with
`strptime(_, "%H:%M")` (a malformed configuration string raises
`ValueError`). -/
def is_within_business_hours (cfg : Config) (d : PDate) (t : Nat) :
    Except PyErr Bool :=
  if ¬ is_business_day cfg (weekdayOf d) then .ok false
  else
    match parseClock (get_business_hours cfg (weekdayOf d)).1 with
    | none => .error .valueError
    | some o =>
      match parseClock (get_business_hours cfg (weekdayOf d)).2 with
      | none => .error .valueError
      | some c => .ok (decide (o ≤ t) && decide (t < c))

/-- Model of `Scheduler.get_available_slots(date_str)`: a date string that fails
`strptime(_, "%Y-%m-%d")` returns `[]` (the `ValueError` is caught), a
non-business day returns `[]`, otherwise the appointment store computes the
free slots for the configured hours and `SLOT_DURATION`. -/
def get_available_slots (cfg : Config) (store : Store) (dateStr : String) :
    Except PyErr (List Nat) :=
  match parseDate dateStr with
  | none => .ok []
  | some d =>
    if ¬ is_business_day cfg (weekdayOf d) then .ok []
    else
      AppointmentManager.get_available_slots store dateStr
        (get_business_hours cfg (weekdayOf d)).1
        (get_business_hours cfg (weekdayOf d)).2
        cfg.slotDuration

/-- The loop body of `Scheduler.get_available_dates`: for `i` from the
current index while `remaining` counts down, look at `now + timedelta(days=i+1)`,
and keep its `strftime("%Y-%m-%d")` string when the day is a business day
with a non-empty slot list. -/
def availableDatesFrom (cfg : Config) (store : Store) (now : PDate) :
    Nat → Nat → Except PyErr (List String)
  | _, 0 => .ok []
  | i, remaining + 1 =>
    if is_business_day cfg (weekdayOf (addDays now (i + 1))) then do
      let slots ← get_available_slots cfg store (dateToStr (addDays now (i + 1)))
      let rest ← availableDatesFrom cfg store now (i + 1) remaining
      if slots.isEmpty then .ok rest
      else .ok (dateToStr (addDays now (i + 1)) :: rest)
    else availableDatesFrom cfg store now (i + 1) remaining

/-- Model of `Scheduler.get_available_dates(days_ahead)` (default 14), with `now`
taken as a parameter: the dates among `now + 1 day, …, now + days_ahead days`
that are business days with a non-empty slot list, in loop order. -/
def get_available_dates (cfg : Config) (store : Store) (now : PDate)
    (daysAhead : Nat) : Except PyErr (List String) :=
  availableDatesFrom cfg store now 0 daysAhead

end Scheduler

namespace Scheduler

/-- Model of `Scheduler.validate_appointment_request(date, time, service)`.

The appointment store is the external collaborator of the validator (spec
§4.4): its `check_availability` answer enters here as the function argument
`avail`, exactly as the code calls
`self.appointment_manager.check_availability(date, time, duration)` on the
injected manager.  `now` is `datetime.now()` in absolute minutes.

The six checks run in source order, each returning `(False, message)` at the
first failure; `strptime` failure of the combined date+time is caught and
reported, while a `strptime` failure on a configured business-hours string
(inside `is_within_business_hours`) and any exception of the collaborator
propagate. -/
def validate_appointment_request (cfg : Config)
    (avail : String → String → Nat → Except PyErr Bool) (now : Nat)
    (date time service : String) : Except PyErr (Bool × String) :=
  match lookupService cfg service with
  | none =>
    .ok (false, "Service '" ++ service ++
      "' is not available. Please choose from our available services.")
  | some svc =>
    match parseDateTime date time with
    | none =>
      .ok (false, "Invalid date or time format. Please use YYYY-MM-DD for date and HH:MM for time (e.g., 2024-01-15 14:30)")
    | some (d, t) =>
      if ¬ is_business_day cfg (weekdayOf d) then
        .ok (false, "We're closed on " ++ dayName (weekdayOf d) ++
          ". Please choose a different day.")
      else if ¬ is_valid_booking_time cfg now (toOrdinal d * 1440 + t) then
        .ok (false, "Appointments must be booked " ++ toString cfg.minAdvance ++
          " hours to " ++ toString cfg.maxAdvance ++ " days in advance.")
      else do
        let within ← is_within_business_hours cfg d t
        if ¬ within then
          .ok (false, "Appointment time must be between " ++
            (get_business_hours cfg (weekdayOf d)).1 ++ " and " ++
            (get_business_hours cfg (weekdayOf d)).2 ++ " on business days.")
        else do
          let ok ← avail date time svc.duration
          if ¬ ok then
            .ok (false, "This time slot is not available. Please choose a different time.")
          else .ok (true, "")

/-- Model of `Scheduler.validate_appointment_request` composed with the repository's
own `AppointmentManager.check_availability` as the availability
collaborator. -/
def validate_with_store (cfg : Config) (store : Store) (now : Nat)
    (date time service : String) : Except PyErr (Bool × String) :=
  validate_appointment_request cfg
    (AppointmentManager.check_availability store) now date time service

/-- Modelled from the spec: the deposit policy
(`DEPOSIT_ENABLED`, `DEPOSIT_TYPE`, `DEPOSIT_AMOUNT`, `DEPOSIT_PERCENTAGE`,
`DEPOSIT_REQUIRED_FOR_SERVICES`).  `Scheduler.calculate_deposit` imports
these names from `config.settings`, but `src/config/settings.py` does not
define them; the spec's `BookingPolicy` names the same fields
(`deposit_enabled`, `deposit_type: Fixed|Percentage`,
`deposit_fixed_amount`, `deposit_percentage`, `deposit_required_services`),
so the missing constants are modelled as this record.  `dtype` keeps the
code's string comparison `DEPOSIT_TYPE == "fixed"`. -/
structure DepositPolicy where
  enabled : Bool
  dtype : String
  amount : ℚ
  percentage : ℚ
  requiredServices : List String

/-- Python `round(x, 2)` on an exact decimal value: round to two decimal
places (the spec fixes only "2 decimal places", allowing either half-even or
half-up at ties; the model uses `round`, i.e. half-up, per the spec's
recommendation — no claim input hits a tie). -/
def round2 (q : ℚ) : ℚ := (round (q * 100) : ℚ) / 100

/-- Model of `Scheduler.calculate_deposit(service, price)` over a deposit policy:
`0` when deposits are disabled or the service needs no deposit, the fixed
amount for `DEPOSIT_TYPE == "fixed"`, otherwise
`round(price * DEPOSIT_PERCENTAGE, 2)`. -/
def calculate_deposit (p : DepositPolicy) (service : String) (price : ℚ) : ℚ :=
  if ¬ p.enabled then 0
  else if ¬ p.requiredServices.contains service then 0
  else if p.dtype == "fixed" then p.amount
  else round2 (price * p.percentage)

/-- The sort key of `Scheduler.suggest_alternative_times`:
`abs(slot_minutes - requested_minutes)`. -/
def slot_distance (requested slot : Nat) : Nat :=
  ((slot : Int) - (requested : Int)).natAbs

/-- Model of `Scheduler.suggest_alternative_times(date, time, count)` (default
`count = 3`), with the requested time given in canonical `"HH:MM"` form and
modelled by its minute value `t`.  The code first tests
`time in available_slots` (string membership, which on canonical strings is
minute-value membership), then sorts the slot list in place with Python's
stable `list.sort(key=slot_distance)` — modelled by the (equally stable)
insertion sort — and returns the first `count` entries.  For a canonical
requested time the `int(time.split(":")[…])` parse always succeeds with
value `t`, so the `except: pass` fallback is not exercised. -/
def suggest_alternative_times (cfg : Config) (store : Store) (dateStr : String)
    (t : Nat) (count : Nat) : Except PyErr (List Nat) := do
  let slots ← get_available_slots cfg store dateStr
  if t ∈ slots then .ok [t]
  else .ok (((slots.insertionSort (fun a b => slot_distance t a ≤ slot_distance t b)).take count))

end Scheduler

/-! ## Lemmas about the slot loops -/

namespace AppointmentManager

/-- A time of day is marked by the booking loop iff it is one of the
appointment's slot-duration strides before the interval end. -/
theorem markSlots_mem {sd : Nat} (hsd : 0 < sd) (cur stop x : Nat) :
    x ∈ markSlots sd cur stop ↔ ∃ k, cur + k * sd < stop ∧ x = (cur + k * sd) % 1440 := by
  induction cur, stop using markSlots.induct sd with
  | case1 cur stop h ih =>
    rw [markSlots, dif_pos h, List.mem_cons, ih]
    constructor
    · rintro (rfl | ⟨k, hk, rfl⟩)
      · exact ⟨0, by omega, by ring_nf⟩
      · exact ⟨k + 1, by push_cast [Nat.add_mul] at hk ⊢; omega,
          by congr 1; ring⟩
    · rintro ⟨k, hk, rfl⟩
      match k with
      | 0 => left; congr 1; omega
      | k + 1 =>
        right
        exact ⟨k, by push_cast [Nat.add_mul] at hk ⊢; omega, by congr 1; ring⟩
  | case2 cur stop h =>
    rw [markSlots, dif_neg h]
    simp only [List.not_mem_nil, false_iff, not_exists, not_and]
    intro k hk
    exact absurd hk (by omega)

/-- A time is produced by the generation loop iff it is a grid time
`cur + k·slotDur` fitting a 60-minute booking before close and it is not
booked. -/
theorem genAvail_mem {sd : Nat} (hsd : 0 < sd) (close : Nat) (booked : List Nat)
    (cur x : Nat) :
    x ∈ genAvail sd close booked cur ↔
      (∃ k, x = cur + k * sd ∧ x + 60 ≤ close) ∧ x ∉ booked := by
  induction cur using genAvail.induct sd close booked with
  | case1 cur h hmem ih =>
    rw [genAvail, dif_pos h, if_pos hmem, ih]
    constructor
    · rintro ⟨⟨k, rfl, hcl⟩, hnb⟩
      exact ⟨⟨k + 1, by ring, hcl⟩, hnb⟩
    · rintro ⟨⟨k, rfl, hcl⟩, hnb⟩
      match k with
      | 0 => exact absurd hmem (by simpa using hnb)
      | k + 1 => exact ⟨⟨k, by ring, hcl⟩, hnb⟩
  | case2 cur h hmem ih =>
    rw [genAvail, dif_pos h, if_neg hmem, List.mem_cons, ih]
    constructor
    · rintro (rfl | ⟨⟨k, rfl, hcl⟩, hnb⟩)
      · exact ⟨⟨0, by ring_nf, h.1⟩, hmem⟩
      · exact ⟨⟨k + 1, by ring, hcl⟩, hnb⟩
    · rintro ⟨⟨k, rfl, hcl⟩, hnb⟩
      match k with
      | 0 => left; omega
      | k + 1 => right; exact ⟨⟨k, by ring, hcl⟩, hnb⟩
  | case3 cur h =>
    rw [genAvail, dif_neg h]
    constructor
    · intro hx
      exact absurd hx (List.not_mem_nil x)
    · rintro ⟨⟨k, rfl, hcl⟩, -⟩
      exact absurd ⟨by omega, hsd⟩ h

/-- Every generated slot is at least the loop's current time. -/
theorem genAvail_ge {sd : Nat} (close : Nat) (booked : List Nat) (cur : Nat) :
    ∀ x ∈ genAvail sd close booked cur, cur ≤ x := by
  induction cur using genAvail.induct sd close booked with
  | case1 cur h hmem ih =>
    rw [genAvail, dif_pos h, if_pos hmem]
    intro x hx
    have := ih x hx
    omega
  | case2 cur h hmem ih =>
    rw [genAvail, dif_pos h, if_neg hmem]
    intro x hx
    rcases List.mem_cons.1 hx with rfl | hx
    · exact le_refl x
    · have := ih x hx
      omega
  | case3 cur h =>
    rw [genAvail, dif_neg h]
    intro x hx
    exact absurd hx (List.not_mem_nil x)

/-- The generation loop produces a strictly increasing (chronological) slot
list. -/
theorem genAvail_sorted (sd close : Nat) (booked : List Nat) (cur : Nat) :
    List.Sorted (· < ·) (genAvail sd close booked cur) := by
  induction cur using genAvail.induct sd close booked with
  | case1 cur h hmem ih =>
    rw [genAvail, dif_pos h, if_pos hmem]
    exact ih
  | case2 cur h hmem ih =>
    rw [genAvail, dif_pos h, if_neg hmem]
    refine List.sorted_cons.2 ⟨fun b hb => ?_, ih⟩
    have := genAvail_ge close booked (cur + sd) b hb
    omega
  | case3 cur h =>
    rw [genAvail, dif_neg h]
    exact List.sorted_nil

end AppointmentManager

namespace AppointmentManager

/-- When every non-cancelled appointment record of the date parses, the
booked-slot accumulation succeeds and contains exactly the strides of those
appointments. -/
theorem bookedSlots_ok (sd : Nat) (l : List Appointment)
    (hl : ∀ a ∈ l, (parseDateTime a.date a.time).isSome) :
    ∃ b, bookedSlots sd l = .ok b ∧
      ∀ x, x ∈ b ↔ ∃ a ∈ l, ∃ p, parseDateTime a.date a.time = some p ∧
        x ∈ markSlots sd (toOrdinal p.1 * 1440 + p.2)
              (toOrdinal p.1 * 1440 + p.2 + a.duration) := by
  induction l with
  | nil =>
    refine ⟨[], rfl, fun x => ?_⟩
    simp
  | cons a rest ih =>
    obtain ⟨p, hp⟩ := Option.isSome_iff_exists.1 (hl a (List.mem_cons_self a rest))
    obtain ⟨b, hb, hmem⟩ := ih (fun a' ha' => hl a' (List.mem_cons_of_mem a ha'))
    obtain ⟨p1, p2⟩ := p
    refine ⟨markSlots sd (toOrdinal p1 * 1440 + p2)
              (toOrdinal p1 * 1440 + p2 + a.duration) ++ b, ?_, fun x => ?_⟩
    · rw [bookedSlots, hp, hb]
      rfl
    · rw [List.mem_append, hmem]
      constructor
      · rintro (hx | ⟨a', ha', p', hp', hx⟩)
        · exact ⟨a, List.mem_cons_self a rest, (p1, p2), hp, hx⟩
        · exact ⟨a', List.mem_cons_of_mem a ha', p', hp', hx⟩
      · rintro ⟨a', ha', p', hp', hx⟩
        rcases List.mem_cons.1 ha' with rfl | ha'
        · rw [hp] at hp'
          cases hp'
          exact Or.inl hx
        · exact Or.inr ⟨a', ha', p', hp', hx⟩

end AppointmentManager

namespace Scheduler

/-- Membership characterisation of `Scheduler.get_available_slots` on a
business day whose configured hours parse as `o` and `c` and whose stored
appointments all parse: the result is `.ok` of the list of grid times
`o + k·slot_duration` (with a 60-minute booking fitting before `c`) that do
not fall on a stride mark of any non-cancelled appointment of the date. -/
theorem get_available_slots_spec (cfg : Config) (store : Store) (dateStr : String)
    (d : PDate) (o c : Nat)
    (hsd : 0 < cfg.slotDuration)
    (hd : parseDate dateStr = some d)
    (hb : is_business_day cfg (weekdayOf d) = true)
    (ho : parseClock (get_business_hours cfg (weekdayOf d)).1 = some o)
    (hc : parseClock (get_business_hours cfg (weekdayOf d)).2 = some c)
    (hl : ∀ a ∈ AppointmentManager.get_appointments_by_date store dateStr,
            (parseDateTime a.date a.time).isSome) :
    ∃ l, get_available_slots cfg store dateStr = .ok l ∧
      ∀ x, x ∈ l ↔
        (∃ k, x = o + k * cfg.slotDuration ∧ x + 60 ≤ c) ∧
        ¬ ∃ a ∈ AppointmentManager.get_appointments_by_date store dateStr,
            ∃ p, parseDateTime a.date a.time = some p ∧
              ∃ k, k * cfg.slotDuration < a.duration ∧
                x = (toOrdinal p.1 * 1440 + p.2 + k * cfg.slotDuration) % 1440 := by
  obtain ⟨b, hbk, hmem⟩ := AppointmentManager.bookedSlots_ok cfg.slotDuration
    (AppointmentManager.get_appointments_by_date store dateStr) hl
  refine ⟨AppointmentManager.genAvail cfg.slotDuration c b o, ?_, fun x => ?_⟩
  · simp only [get_available_slots, hd]
    rw [if_neg (by simp [hb])]
    simp only [AppointmentManager.get_available_slots, hbk, ho, hc]
    rfl
  · rw [AppointmentManager.genAvail_mem hsd]
    constructor
    · rintro ⟨hg, hnb⟩
      refine ⟨hg, fun hcov => hnb ?_⟩
      rw [hmem]
      obtain ⟨a, ha, p, hp, k, hk, rfl⟩ := hcov
      refine ⟨a, ha, p, hp, ?_⟩
      rw [AppointmentManager.markSlots_mem hsd]
      exact ⟨k, by omega, rfl⟩
    · rintro ⟨hg, hcov⟩
      refine ⟨hg, fun hxb => hcov ?_⟩
      rw [hmem] at hxb
      obtain ⟨a, ha, p, hp, hx⟩ := hxb
      rw [AppointmentManager.markSlots_mem hsd] at hx
      obtain ⟨k, hk, rfl⟩ := hx
      exact ⟨a, ha, p, hp, k, by omega, rfl⟩

end Scheduler

namespace Scheduler

/-- Any slot list the scheduler returns normally is strictly increasing. -/
theorem get_available_slots_ok_sorted (cfg : Config) (store : Store)
    (s : String) (l : List Nat)
    (h : get_available_slots cfg store s = .ok l) : List.Sorted (· < ·) l := by
  rw [get_available_slots] at h
  match hd : parseDate s with
  | none =>
    rw [hd] at h
    cases h
    exact List.sorted_nil
  | some d =>
    simp only [hd] at h
    by_cases hb : is_business_day cfg (weekdayOf d)
    · rw [if_neg (by simp [hb])] at h
      rw [AppointmentManager.get_available_slots] at h
      match hbk : AppointmentManager.bookedSlots cfg.slotDuration
          (AppointmentManager.get_appointments_by_date store s) with
      | .error e =>
        rw [hbk] at h
        exact Except.noConfusion h
      | .ok b =>
        rw [hbk] at h
        match ho : parseClock (get_business_hours cfg (weekdayOf d)).1 with
        | none =>
          rw [ho] at h
          exact Except.noConfusion h
        | some o =>
          rw [ho] at h
          match hc : parseClock (get_business_hours cfg (weekdayOf d)).2 with
          | none =>
            rw [hc] at h
            exact Except.noConfusion h
          | some c =>
            rw [hc] at h
            cases h
            exact AppointmentManager.genAvail_sorted cfg.slotDuration c b o
    · rw [if_pos (by simp [hb])] at h
      cases h
      exact List.sorted_nil

end Scheduler

/-! ## The `strftime("%Y-%m-%d")` / `strptime` roundtrip -/

/-- Decimal digits format to digit characters that decode back. -/
theorem digit_facts : ∀ x < 10,
    (Nat.digitChar x).isDigit = true ∧ digitVal (Nat.digitChar x) = x := by decide

theorem daysInMonth_le31 (y m : Nat) : daysInMonth y m ≤ 31 := by
  rw [daysInMonth]
  repeat' split
  all_goals omega

theorem readYear4_pad4 (y : Nat) (hy : y < 10000) (rest : List Char) :
    readYear4 (pad4 y ++ rest) = some (y, rest) := by
  have d1 := digit_facts (y / 1000) (by omega)
  have d2 := digit_facts (y / 100 % 10) (by omega)
  have d3 := digit_facts (y / 10 % 10) (by omega)
  have d4 := digit_facts (y % 10) (by omega)
  have hval : ((y / 1000 * 10 + y / 100 % 10) * 10 + y / 10 % 10) * 10 + y % 10 = y := by
    omega
  simp [pad4, readYear4, d1.1, d2.1, d3.1, d4.1, d1.2, d2.2, d3.2, d4.2, hval]

theorem readNum2_pad2 (lo2 hi2 lo1 m : Nat) (h2 : lo2 ≤ m) (h3 : m ≤ hi2)
    (h4 : m < 100) (rest : List Char) :
    readNum2 lo2 hi2 lo1 (pad2 m ++ rest) = some (m, rest) := by
  have d1 := digit_facts (m / 10) (by omega)
  have d2 := digit_facts (m % 10) (by omega)
  have hval : m / 10 * 10 + m % 10 = m := by omega
  simp [pad2, readNum2, d1.1, d2.1, d1.2, d2.2, hval, h2, h3]

theorem expectChar_cons (c : Char) (rest : List Char) :
    expectChar c (c :: rest) = some rest := by
  simp [expectChar]

theorem parseDateCore_pad (d : PDate) (hv : d.Valid) (rest : List Char) :
    parseDateCore (pad4 d.year ++ ('-' :: (pad2 d.month ++ ('-' :: (pad2 d.day ++ rest))))) =
      some (d, rest) := by
  obtain ⟨h1, h2, h3, h4, h5, h6⟩ := hv
  have h31 := daysInMonth_le31 d.year d.month
  rw [parseDateCore]
  rw [readYear4_pad4 d.year (by omega) _]
  simp only [Option.bind_eq_bind, Option.some_bind, expectChar_cons]
  rw [readNum2_pad2 1 12 1 d.month h3 h4 (by omega) _]
  simp only [Option.some_bind, expectChar_cons]

  rw [readNum2_pad2 1 31 1 d.day h5 (by omega) (by omega) rest]
  simp only [Option.some_bind]
  rw [if_pos ⟨h1, h6⟩]

/-- The `strftime("%Y-%m-%d")` string of a representable date parses back to
the same date. -/
theorem parseDate_dateToStr (d : PDate) (hv : d.Valid) :
    parseDate (dateToStr d) = some d := by
  have h : (dateToStr d).toList =
      pad4 d.year ++ ('-' :: (pad2 d.month ++ ('-' :: (pad2 d.day ++ [])))) := by
    simp [dateToStr, String.toList]
  rw [parseDate, h, parseDateCore_pad d hv []]

/-! ## Totality and shape of the multi-day horizon -/

namespace Scheduler

/-- The slot list a normal return of `Scheduler.get_available_slots` carries
(`[]` in the modelled-exception case; used only to state results about runs
in which no exception occurs). -/
def okSlots (cfg : Config) (store : Store) (s : String) : List Nat :=
  match get_available_slots cfg store s with
  | .ok l => l
  | .error _ => []

/-- With parseable configured hours and parseable stored appointments,
`Scheduler.get_available_slots` always returns normally. -/
theorem get_available_slots_total (cfg : Config) (store : Store)
    (hcfg : ∀ w : Weekday, (parseClock (get_business_hours cfg w).1).isSome ∧
      (parseClock (get_business_hours cfg w).2).isSome)
    (hstore : ∀ a ∈ store, (parseDateTime a.date a.time).isSome) (s : String) :
    ∃ l, get_available_slots cfg store s = .ok l := by
  rw [get_available_slots]
  match hd : parseDate s with
  | none => exact ⟨[], rfl⟩
  | some d =>
    show ∃ l, (if ¬ is_business_day cfg (weekdayOf d) = true then Except.ok []
      else AppointmentManager.get_available_slots store s
        (get_business_hours cfg (weekdayOf d)).1
        (get_business_hours cfg (weekdayOf d)).2 cfg.slotDuration) = Except.ok l
    by_cases hb : is_business_day cfg (weekdayOf d)
    · rw [if_neg (by simp [hb])]
      obtain ⟨o, ho⟩ := Option.isSome_iff_exists.1 (hcfg (weekdayOf d)).1
      obtain ⟨c, hc⟩ := Option.isSome_iff_exists.1 (hcfg (weekdayOf d)).2
      obtain ⟨b, hbk, -⟩ := AppointmentManager.bookedSlots_ok cfg.slotDuration
        (AppointmentManager.get_appointments_by_date store s)
        (fun a ha => hstore a (List.mem_filter.1 ha).1)
      refine ⟨AppointmentManager.genAvail cfg.slotDuration c b o, ?_⟩
      rw [AppointmentManager.get_available_slots]
      simp only [hbk, ho, hc]
      rfl
    · rw [if_pos (by simp [hb])]
      exact ⟨[], rfl⟩

/-- Closed form of the date-horizon loop: starting at index `i` with
`remaining` iterations left, it returns (normally) exactly the formatted
dates `now + (i+j+1) days`, `j < remaining`, that are business days with a
non-empty slot list, in loop order. -/
theorem availableDatesFrom_ok (cfg : Config) (store : Store) (now : PDate)
    (hcfg : ∀ w : Weekday, (parseClock (get_business_hours cfg w).1).isSome ∧
      (parseClock (get_business_hours cfg w).2).isSome)
    (hstore : ∀ a ∈ store, (parseDateTime a.date a.time).isSome) :
    ∀ (remaining i : Nat),
      availableDatesFrom cfg store now i remaining =
        .ok ((List.range remaining).filterMap (fun j =>
          if is_business_day cfg (weekdayOf (addDays now (i + j + 1))) = true ∧
              okSlots cfg store (dateToStr (addDays now (i + j + 1))) ≠ [] then
            some (dateToStr (addDays now (i + j + 1)))
          else none)) := by
  intro remaining
  induction remaining with
  | zero => intro i; rfl
  | succ remaining ih =>
    intro i
    have hcomp : (List.range remaining).filterMap ((fun j =>
          if is_business_day cfg (weekdayOf (addDays now (i + j + 1))) = true ∧
              okSlots cfg store (dateToStr (addDays now (i + j + 1))) ≠ [] then
            some (dateToStr (addDays now (i + j + 1)))
          else none) ∘ Nat.succ) =
        (List.range remaining).filterMap (fun j =>
          if is_business_day cfg (weekdayOf (addDays now (i + 1 + j + 1))) = true ∧
              okSlots cfg store (dateToStr (addDays now (i + 1 + j + 1))) ≠ [] then
            some (dateToStr (addDays now (i + 1 + j + 1)))
          else none) := by
      apply List.filterMap_congr
      intro j hj
      simp only [Function.comp_apply, Nat.succ_eq_add_one]
      have h2 : i + (j + 1) + 1 = i + 1 + j + 1 := by ring
      rw [h2]
    rw [availableDatesFrom]
    obtain ⟨sl, hsl⟩ := get_available_slots_total cfg store hcfg hstore
      (dateToStr (addDays now (i + 1)))
    have hok : okSlots cfg store (dateToStr (addDays now (i + 1))) = sl := by
      rw [okSlots, hsl]
    rw [List.range_succ_eq_map, List.filterMap_cons, List.filterMap_map, hcomp]
    by_cases hb : is_business_day cfg (weekdayOf (addDays now (i + 1)))
    · rw [if_pos hb, hsl]
      show (do
        let rest ← availableDatesFrom cfg store now (i + 1) remaining
        if sl.isEmpty then Except.ok rest
        else Except.ok (dateToStr (addDays now (i + 1)) :: rest)) = _
      rw [ih (i + 1)]
      show (if sl.isEmpty then _
        else Except.ok (dateToStr (addDays now (i + 1)) :: _)) = _
      by_cases hempty : sl.isEmpty
      · rw [if_pos hempty]
        have hcond : ¬ (is_business_day cfg (weekdayOf (addDays now (i + 0 + 1))) = true ∧
            okSlots cfg store (dateToStr (addDays now (i + 0 + 1))) ≠ []) := by
          simp only [Nat.add_zero, hok]
          rintro ⟨-, hne⟩
          exact hne (List.isEmpty_iff.1 hempty)
        rw [if_neg hcond]
      · rw [if_neg hempty]
        have hcond : (is_business_day cfg (weekdayOf (addDays now (i + 0 + 1))) = true ∧
            okSlots cfg store (dateToStr (addDays now (i + 0 + 1))) ≠ []) := by
          simp only [Nat.add_zero, hok]
          exact ⟨hb, fun hne => hempty (by simp [hne])⟩
        rw [if_pos hcond]
    · rw [if_neg hb]
      rw [ih (i + 1)]
      have hcond : ¬ (is_business_day cfg (weekdayOf (addDays now (i + 0 + 1))) = true ∧
          okSlots cfg store (dateToStr (addDays now (i + 0 + 1))) ≠ []) := by
        simp only [Nat.add_zero]
        rintro ⟨hbb, -⟩
        exact hb hbb
      rw [if_neg hcond]

end Scheduler

/-! ## Chronology of calendar dates -/

/-- A monotone numeric key for calendar order of dates (`yyyy*384 + mm*32 +
dd`; strictly increasing along `nextDay` on representable dates). -/
def dval (d : PDate) : Nat := d.year * 384 + d.month * 32 + d.day

theorem dval_nextDay (d : PDate) (hv : d.Valid) : dval d < dval (nextDay d) := by
  obtain ⟨h1, h2, h3, h4, h5, h6⟩ := hv
  have h31 := daysInMonth_le31 d.year d.month
  rw [nextDay]
  split_ifs with hd hm
  · simp only [dval]
    omega
  · simp only [dval]
    omega
  · simp only [dval]
    omega

theorem addDays_succ (d : PDate) (k : Nat) :
    addDays d (k + 1) = nextDay (addDays d k) := by
  rw [addDays, addDays, Function.iterate_succ_apply']

theorem dval_addDays_strict (now : PDate) : ∀ b a : Nat, a < b →
    (∀ k, a ≤ k → k < b → (addDays now k).Valid) →
    dval (addDays now a) < dval (addDays now b) := by
  intro b
  induction b with
  | zero => omega
  | succ b ih =>
    intro a hab hval
    rcases Nat.lt_succ_iff_lt_or_eq.1 hab with hlt | rfl
    · have hstep : dval (addDays now b) < dval (addDays now (b + 1)) := by
        rw [addDays_succ]
        exact dval_nextDay _ (hval b (by omega) (by omega))
      exact lt_trans (ih a hlt (fun k hk1 hk2 => hval k hk1 (by omega))) hstep
    · rw [addDays_succ]
      exact dval_nextDay _ (hval a (le_refl a) (by omega))

/-! ## The validator's rejection cascade (spec side)

The next definitions follow the spec's §4.2 wording — the ordered list of
rejection reasons and, for each, its failure condition — to be compared
with `Scheduler.validate_appointment_request` as translated from the
source. -/

/-- The spec's rejection reasons, §4.2. -/
inductive Reason where
  | unknownService
  | malformedDateTime
  | closedDay
  | outsideBookingWindow
  | outsideBusinessHours
  | slotUnavailable
deriving DecidableEq

/-- The spec's fixed evaluation order of the six checks. -/
def reasonOrder : List Reason :=
  [.unknownService, .malformedDateTime, .closedDay,
   .outsideBookingWindow, .outsideBusinessHours, .slotUnavailable]

/-- Following the spec's words: whether each check fails, for a request
`(date, time, service)` at time `now` against availability oracle `avail`
(the Appointment Store collaborator of §4.4).  Values that only exist after
an earlier check passed (the parsed datetime, the service duration, the
parsed business hours) are read with defaults; a failing earlier check stops
the cascade before they are consulted. -/
def checkFails (cfg : Config) (avail : String → String → Nat → Bool) (now : Nat)
    (date time service : String) : Reason → Bool :=
  fun r =>
    let pd := parseDateTime date time
    let d := (pd.map Prod.fst).getD ⟨1, 1, 1⟩
    let t := (pd.map Prod.snd).getD 0
    let dur := ((lookupService cfg service).map Service.duration).getD 0
    let o := (parseClock (Scheduler.get_business_hours cfg (weekdayOf d)).1).getD 0
    let c := (parseClock (Scheduler.get_business_hours cfg (weekdayOf d)).2).getD 0
    match r with
    | .unknownService => (lookupService cfg service).isNone
    | .malformedDateTime => pd.isNone
    | .closedDay => ! Scheduler.is_business_day cfg (weekdayOf d)
    | .outsideBookingWindow =>
      ! Scheduler.is_valid_booking_time cfg now (toOrdinal d * 1440 + t)
    | .outsideBusinessHours => ! (decide (o ≤ t) && decide (t < c))
    | .slotUnavailable => ! avail date time dur

/-- The rejection message the source emits for each reason. -/
def rejectionMessage (cfg : Config) (date time service : String) : Reason → String :=
  fun r =>
    let d := ((parseDateTime date time).map Prod.fst).getD ⟨1, 1, 1⟩
    match r with
    | .unknownService =>
      "Service '" ++ service ++
        "' is not available. Please choose from our available services."
    | .malformedDateTime =>
      "Invalid date or time format. Please use YYYY-MM-DD for date and HH:MM for time (e.g., 2024-01-15 14:30)"
    | .closedDay =>
      "We're closed on " ++ dayName (weekdayOf d) ++ ". Please choose a different day."
    | .outsideBookingWindow =>
      "Appointments must be booked " ++ toString cfg.minAdvance ++ " hours to " ++
        toString cfg.maxAdvance ++ " days in advance."
    | .outsideBusinessHours =>
      "Appointment time must be between " ++
        (Scheduler.get_business_hours cfg (weekdayOf d)).1 ++ " and " ++
        (Scheduler.get_business_hours cfg (weekdayOf d)).2 ++ " on business days."
    | .slotUnavailable =>
      "This time slot is not available. Please choose a different time."

theorem mem_reasonOrder (r : Reason) : r ∈ reasonOrder := by
  cases r <;> simp [reasonOrder]

/-- The source validator, run with a pure availability collaborator, returns
exactly the spec cascade's verdict: the message of the first failing check
in `reasonOrder`, or acceptance. -/
theorem validate_eq_firstFail (cfg : Config)
    (avail : String → String → Nat → Bool) (now : Nat)
    (date time service : String)
    (hcfg : ∀ w : Weekday, (parseClock (Scheduler.get_business_hours cfg w).1).isSome ∧
      (parseClock (Scheduler.get_business_hours cfg w).2).isSome) :
    Scheduler.validate_appointment_request cfg
        (fun a b c => .ok (avail a b c)) now date time service =
      .ok (match reasonOrder.find? (checkFails cfg avail now date time service) with
        | none => (true, "")
        | some r => (false, rejectionMessage cfg date time service r)) := by
  rcases hsvc : lookupService cfg service with - | svc
  · have h1 : checkFails cfg avail now date time service .unknownService = true := by
      simp [checkFails, hsvc]
    simp [Scheduler.validate_appointment_request, hsvc, reasonOrder, List.find?, h1,
      rejectionMessage]
  · have h1 : checkFails cfg avail now date time service .unknownService = false := by
      simp [checkFails, hsvc]
    rcases hp : parseDateTime date time with - | ⟨d, t⟩
    · have h2 : checkFails cfg avail now date time service .malformedDateTime = true := by
        simp [checkFails, hp]
      simp [Scheduler.validate_appointment_request, hsvc, hp, reasonOrder, List.find?,
        h1, h2, rejectionMessage]
    · have h2 : checkFails cfg avail now date time service .malformedDateTime = false := by
        simp [checkFails, hp]
      obtain ⟨o, ho⟩ := Option.isSome_iff_exists.1 (hcfg (weekdayOf d)).1
      obtain ⟨c, hc⟩ := Option.isSome_iff_exists.1 (hcfg (weekdayOf d)).2
      simp only [Scheduler.validate_appointment_request, hsvc, hp]
      by_cases hbd : Scheduler.is_business_day cfg (weekdayOf d) = true
      · have h3 : checkFails cfg avail now date time service .closedDay = false := by
          simp [checkFails, hp, hbd]
        rw [if_neg (by simp [hbd])]
        by_cases hwin : Scheduler.is_valid_booking_time cfg now (toOrdinal d * 1440 + t) = true
        · have h4 : checkFails cfg avail now date time service .outsideBookingWindow = false := by
            simp [checkFails, hp, hwin]
          rw [if_neg (by simp [hwin])]
          have hwithin : Scheduler.is_within_business_hours cfg d t =
              .ok (decide (o ≤ t) && decide (t < c)) := by
            rw [Scheduler.is_within_business_hours, if_neg (by simp [hbd]), ho, hc]
          rw [hwithin]
          show (if ¬ (decide (o ≤ t) && decide (t < c)) = true then _ else _) = _
          by_cases hbh : (decide (o ≤ t) && decide (t < c)) = true
          · have h5 : checkFails cfg avail now date time service .outsideBusinessHours = false := by
              simp only [checkFails, hp]
              simp [ho, hc, hbh]
            rw [if_neg (by simp [hbh])]
            show (if ¬ avail date time svc.duration = true then _ else _) = _
            by_cases hav : avail date time svc.duration = true
            · have h6 : checkFails cfg avail now date time service .slotUnavailable = false := by
                simp [checkFails, hsvc, hav]
              rw [if_neg (by simp [hav])]
              simp [reasonOrder, List.find?, h1, h2, h3, h4, h5, h6]
            · have h6 : checkFails cfg avail now date time service .slotUnavailable = true := by
                simp [checkFails, hsvc, hav]
              rw [if_pos (by simp [hav])]
              simp [reasonOrder, List.find?, h1, h2, h3, h4, h5, h6, rejectionMessage]
          · have h5 : checkFails cfg avail now date time service .outsideBusinessHours = true := by
              simp only [checkFails, hp]
              simp [ho, hc, hbh]
            rw [if_pos (by simp [hbh])]
            simp [reasonOrder, List.find?, h1, h2, h3, h4, h5, rejectionMessage, hp]
        · have h4 : checkFails cfg avail now date time service .outsideBookingWindow = true := by
            simp [checkFails, hp, hwin]
          rw [if_pos (by simp [hwin])]
          simp [reasonOrder, List.find?, h1, h2, h3, h4, rejectionMessage]
      · have h3 : checkFails cfg avail now date time service .closedDay = true := by
          simp [checkFails, hp, hbd]
        rw [if_pos (by simp [hbd])]
        simp [reasonOrder, List.find?, h1, h2, h3, rejectionMessage, hp]

/-! ## Stable sort by distance -/

/-- Inserting `x` into a list sorted by sort key and originally-later than
every element keeps the list sorted by key with ties in original
(ascending-value) order. -/
theorem orderedInsert_keyLex (key : Nat → Nat) (x : Nat) :
    ∀ L : List Nat,
      L.Pairwise (fun a b => key a < key b ∨ (key a = key b ∧ a < b)) →
      (∀ b ∈ L, x < b) →
      (L.orderedInsert (fun a b => key a ≤ key b) x).Pairwise
        (fun a b => key a < key b ∨ (key a = key b ∧ a < b)) := by
  intro L
  induction L with
  | nil =>
    intro _ _
    simp [List.orderedInsert]
  | cons b l ih =>
    intro hL hx
    rw [List.orderedInsert]
    by_cases h : key x ≤ key b
    · rw [if_pos h]
      refine List.pairwise_cons.2 ⟨fun y hy => ?_, hL⟩
      have hky : key b ≤ key y := by
        rcases List.mem_cons.1 hy with rfl | hyl
        · exact le_refl _
        · rcases (List.pairwise_cons.1 hL).1 y hyl with hlt | ⟨heq, -⟩
          · exact le_of_lt hlt
          · exact le_of_eq heq
      rcases lt_or_eq_of_le (le_trans h hky) with hlt | heq
      · exact Or.inl hlt
      · exact Or.inr ⟨heq, hx y hy⟩
    · rw [if_neg h]
      refine List.pairwise_cons.2 ⟨fun y hy => ?_, ?_⟩
      · rcases (List.mem_orderedInsert (fun a b => key a ≤ key b)).1 hy with rfl | hyl
        · exact Or.inl (lt_of_not_le h)
        · exact (List.pairwise_cons.1 hL).1 y hyl
      · exact ih (List.pairwise_cons.1 hL).2
          (fun c hc => hx c (List.mem_cons_of_mem b hc))

/-- Stable-sorting a strictly ascending list by a key yields a list sorted
by key with ties in ascending (chronological) order. -/
theorem insertionSort_keyLex (key : Nat → Nat) :
    ∀ l : List Nat, l.Pairwise (· < ·) →
      (l.insertionSort (fun a b => key a ≤ key b)).Pairwise
        (fun a b => key a < key b ∨ (key a = key b ∧ a < b)) := by
  intro l
  induction l with
  | nil =>
    intro _
    simp [List.insertionSort]
  | cons x l ih =>
    intro hl
    rw [List.insertionSort]
    apply orderedInsert_keyLex
    · exact ih (List.pairwise_cons.1 hl).2
    · intro b hb
      exact (List.pairwise_cons.1 hl).1 b ((List.mem_insertionSort (fun a b => key a ≤ key b)).1 hb)

/-! ## Claim theorems -/

/-- A small configuration used for concrete instances: Monday open
09:00–11:30 (slot grid 09:00, 09:30, 10:00, 10:30), other days as in
`settings`. -/
def cfgShort : Config :=
  { settings with
    businessHours := fun w =>
      if w = .monday then some ("09:00", "11:30") else settings.businessHours w }

/-- A configuration whose every day is open 09:00–10:00 (single slot
09:00). -/
def cfgTiny : Config :=
  { settings with businessHours := fun _ => some ("09:00", "10:00") }

/-- One pending appointment on Monday 2026-10-12 at 09:15 for 30 minutes —
a start time off the 30-minute slot grid. -/
def storeMis : Store := [⟨"2026-10-12", "09:15", 30, "pending"⟩]

/-- One pending appointment on Monday 2026-10-12 at 10:00 for 30 minutes. -/
def storeEx : Store := [⟨"2026-10-12", "10:00", 30, "pending"⟩]

/-- C10: an input string that does not parse as a `YYYY-MM-DD` calendar date
makes `Scheduler.get_available_slots` return the empty list normally, for
every configuration and every store (the store is never consulted), so a
malformed date is indistinguishable from a day with no availability. -/
theorem claim_C10_malformed_date_empty (cfg : Config) (store : Store) (s : String)
    (h : parseDate s = none) :
    Scheduler.get_available_slots cfg store s = .ok [] := by
  rw [Scheduler.get_available_slots]
  simp only [h]

theorem claim_C10_witness :
    parseDate "not-a-date" = none ∧
      Scheduler.get_available_slots settings [] "not-a-date" = .ok [] :=
  ⟨by decide, claim_C10_malformed_date_empty settings [] "not-a-date" (by decide)⟩

/-- C7: the booking-window check accepts exactly the datetimes `when` with
`now + min_advance_hours ≤ when ≤ now + max_advance_days`, both bounds
inclusive: the instant `now + min_advance_hours` itself is accepted and one
minute earlier is rejected (the window's `OutsideBookingWindow` branch in
the validator fires exactly when this check returns `false`). -/
theorem claim_C7_booking_window (cfg : Config) (now when : Nat)
    (hmin : 1 ≤ cfg.minAdvance) (hwidth : 60 * cfg.minAdvance ≤ 1440 * cfg.maxAdvance) :
    (Scheduler.is_valid_booking_time cfg now when = true ↔
      now + 60 * cfg.minAdvance ≤ when ∧ when ≤ now + 1440 * cfg.maxAdvance) ∧
    Scheduler.is_valid_booking_time cfg now (now + 60 * cfg.minAdvance) = true ∧
    Scheduler.is_valid_booking_time cfg now (now + 60 * cfg.minAdvance - 1) = false := by
  refine ⟨?_, ?_, ?_⟩
  · simp [Scheduler.is_valid_booking_time]
  · rw [Scheduler.is_valid_booking_time]
    simp only [Bool.and_eq_true, decide_eq_true_eq]
    omega
  · rw [Scheduler.is_valid_booking_time]
    have h1 : ¬ (now + 60 * cfg.minAdvance ≤ now + 60 * cfg.minAdvance - 1) := by omega
    simp [h1]

theorem claim_C7_witness :
    Scheduler.is_valid_booking_time settings 1000 1240 = true ∧
      Scheduler.is_valid_booking_time settings 1000 1239 = false := by
  have h := claim_C7_booking_window settings 1000 0 (by decide) (by decide)
  exact ⟨h.2.1, h.2.2⟩

/-- C8: the deposit is `0` when deposits are globally disabled or the
service is not in the deposit-required set; otherwise it is the fixed
amount for policy type `"fixed"` and `round(price · percentage, 2)` for the
percentage type.  (The deposit policy itself is modelled from the spec —
the `DEPOSIT_*` constants are absent from `src/config/settings.py`.) -/
theorem claim_C8_deposit_rules (p : Scheduler.DepositPolicy) (service : String) (price : ℚ) :
    (p.enabled = false → Scheduler.calculate_deposit p service price = 0) ∧
    (p.requiredServices.contains service = false →
      Scheduler.calculate_deposit p service price = 0) ∧
    (p.enabled = true → p.requiredServices.contains service = true → p.dtype = "fixed" →
      Scheduler.calculate_deposit p service price = p.amount) ∧
    (p.enabled = true → p.requiredServices.contains service = true → p.dtype ≠ "fixed" →
      Scheduler.calculate_deposit p service price =
        Scheduler.round2 (price * p.percentage)) := by
  refine ⟨?_, ?_, ?_, ?_⟩
  · intro h
    rw [Scheduler.calculate_deposit, if_pos (by simp [h])]
  · intro h
    by_cases he : p.enabled = true
    · have hmem : service ∉ p.requiredServices := by
        intro hm
        rw [List.contains_eq_any_beq] at h
        simp at h
        exact absurd rfl (h service hm)
      rw [Scheduler.calculate_deposit, if_neg (by simp [he]), if_pos (by simp [hmem])]
    · rw [Scheduler.calculate_deposit, if_pos (by simp [he])]
  · intro h1 h2 h3
    have hmem : service ∈ p.requiredServices := by
      simpa [List.elem_iff] using h2
    rw [Scheduler.calculate_deposit, if_neg (by simp [h1]), if_neg (by simp [hmem]),
      if_pos (by simp [h3])]
  · intro h1 h2 h3
    have hmem : service ∈ p.requiredServices := by
      simpa [List.elem_iff] using h2
    rw [Scheduler.calculate_deposit, if_neg (by simp [h1]), if_neg (by simp [hmem]),
      if_neg (by simp [h3])]

theorem claim_C8_witness :
    Scheduler.calculate_deposit ⟨true, "percentage", 20, 1/4, ["general_assistance"]⟩
        "general_assistance" 90 = 45/2 ∧
    Scheduler.calculate_deposit ⟨true, "percentage", 20, 1/4, ["general_assistance"]⟩
        "massage" 90 = 0 := by
  have h := claim_C8_deposit_rules ⟨true, "percentage", 20, 1/4, ["general_assistance"]⟩
    "general_assistance" 90
  have h2 := claim_C8_deposit_rules ⟨true, "percentage", 20, 1/4, ["general_assistance"]⟩
    "massage" 90
  refine ⟨?_, ?_⟩
  · rw [h.2.2.2 rfl (by decide) (by decide)]
    rw [Scheduler.round2]
    norm_num
  · exact h2.2.1 (by decide)

/-- C3 (code bug): the store's availability check never reaches its overlap
loop: after `get_appointments_by_date` and the `strptime` of the requested
datetime succeed, the next statement `datetime.timedelta(minutes=duration)`
raises `AttributeError` (the module imports the class `datetime`, which has
no `timedelta` attribute), so `check_availability` raises on every
well-formed input instead of reporting the half-open-interval overlap
verdict. -/
theorem claim_C3_check_availability_raises :
    AppointmentManager.check_availability [] "2026-10-15" "10:00" 60 =
      .error .attributeError := by
  rfl

/-- C2 (code bug): the composed validator is not exception-free — on a
request that passes service lookup, datetime parsing, the business-day,
booking-window and business-hours checks, the call into
`AppointmentManager.check_availability` raises `AttributeError`
(`datetime.timedelta` on the imported class), so
`validate_appointment_request` propagates an exception instead of returning
a rejection result.  (`now` is midnight, Monday 2026-10-12; the request is
for Tuesday 2026-10-13 10:00, inside every window.) -/
theorem claim_C2_validate_with_store_raises :
    Scheduler.validate_with_store settings [] (toOrdinal ⟨2026, 10, 12⟩ * 1440)
      "2026-10-13" "10:00" "general_assistance" = .error .attributeError := by
  rfl

/-- C1: with the Appointment Store taken as the boolean availability
collaborator of spec §4.4, the validator evaluates its six checks in the
fixed order `UnknownService, MalformedDateTime, ClosedDay,
OutsideBookingWindow, OutsideBusinessHours, SlotUnavailable`: it returns the
rejection message of the first check that fails (so an unknown service is
reported even when the date is also malformed), and it returns acceptance
iff all six checks pass. -/
theorem claim_C1_validator_check_order (cfg : Config)
    (avail : String → String → Nat → Bool) (now : Nat)
    (date time service : String)
    (hcfg : ∀ w : Weekday, (parseClock (Scheduler.get_business_hours cfg w).1).isSome ∧
      (parseClock (Scheduler.get_business_hours cfg w).2).isSome) :
    (Scheduler.validate_appointment_request cfg
        (fun a b c => .ok (avail a b c)) now date time service =
      .ok (match reasonOrder.find? (checkFails cfg avail now date time service) with
        | none => (true, "")
        | some r => (false, rejectionMessage cfg date time service r))) ∧
    (Scheduler.validate_appointment_request cfg
        (fun a b c => .ok (avail a b c)) now date time service = .ok (true, "") ↔
      ∀ r : Reason, checkFails cfg avail now date time service r = false) := by
  have heq := validate_eq_firstFail cfg avail now date time service hcfg
  refine ⟨heq, ?_⟩
  rw [heq]
  constructor
  · intro h
    intro r
    match hf : reasonOrder.find? (checkFails cfg avail now date time service) with
    | none =>
      have := List.find?_eq_none.1 hf r (mem_reasonOrder r)
      simpa using this
    | some r' =>
      rw [hf] at h
      simp at h
  · intro hall
    have hf : reasonOrder.find? (checkFails cfg avail now date time service) = none :=
      List.find?_eq_none.2 (fun x _ => by simp [hall x])
    rw [hf]

theorem claim_C1_witness :
    Scheduler.validate_appointment_request settings (fun a b c => .ok ((fun _ _ _ => true) a b c))
        0 "bad-date" "9x" "nope" =
      .ok (false, "Service 'nope' is not available. Please choose from our available services.") := by
  have h := (claim_C1_validator_check_order settings (fun _ _ _ => true) 0 "bad-date" "9x" "nope"
    (by intro w; cases w <;> exact ⟨by decide, by decide⟩)).1
  rw [h]
  rfl

/-- Concrete run: Monday 09:00–11:30, slot 30, no appointments. -/
theorem eval_slots_cfgShort_empty :
    Scheduler.get_available_slots cfgShort [] "2026-10-12" =
      .ok [540, 570, 600, 630] := by
  have hpd : parseDate "2026-10-12" = some ⟨2026, 10, 12⟩ := rfl
  have hw : weekdayOf ⟨2026, 10, 12⟩ = .monday := rfl
  have hbh : Scheduler.get_business_hours cfgShort .monday = ("09:00", "11:30") := rfl
  simp only [Scheduler.get_available_slots, hpd, hw, hbh]
  rw [if_neg (by decide)]
  rw [AppointmentManager.get_available_slots]
  simp only [show AppointmentManager.get_appointments_by_date [] "2026-10-12" = [] from rfl,
    AppointmentManager.bookedSlots,
    show parseClock "09:00" = some 540 from rfl, show parseClock "11:30" = some 690 from rfl,
    show cfgShort.slotDuration = 30 from rfl]
  show Except.ok (AppointmentManager.genAvail 30 690 [] 540) = _
  simp [AppointmentManager.genAvail]

/-- Concrete run: Monday 09:00–11:30, slot 30, one appointment at 09:15 for
30 minutes (off the grid): its only mark is 09:15, so no grid slot is
removed. -/
theorem eval_slots_cfgShort_mis :
    Scheduler.get_available_slots cfgShort storeMis "2026-10-12" =
      .ok [540, 570, 600, 630] := by
  have hpd : parseDate "2026-10-12" = some ⟨2026, 10, 12⟩ := rfl
  have hw : weekdayOf ⟨2026, 10, 12⟩ = .monday := rfl
  have hpdt : parseDateTime "2026-10-12" "09:15" = some (⟨2026, 10, 12⟩, 555) := rfl
  have hbh : Scheduler.get_business_hours cfgShort .monday = ("09:00", "11:30") := rfl
  have happt : AppointmentManager.get_appointments_by_date storeMis "2026-10-12" =
      [⟨"2026-10-12", "09:15", 30, "pending"⟩] := rfl
  have hmark : AppointmentManager.markSlots 30 (toOrdinal ⟨2026, 10, 12⟩ * 1440 + 555)
      (toOrdinal ⟨2026, 10, 12⟩ * 1440 + 555 + 30) =
      [(toOrdinal ⟨2026, 10, 12⟩ * 1440 + 555) % 1440] := by
    rw [AppointmentManager.markSlots, dif_pos ⟨by omega, by omega⟩,
        AppointmentManager.markSlots, dif_neg (by omega)]
  have hmod : (toOrdinal ⟨2026, 10, 12⟩ * 1440 + 555) % 1440 = 555 := by omega
  simp only [Scheduler.get_available_slots, hpd, hw, hbh]
  rw [if_neg (by decide)]
  rw [AppointmentManager.get_available_slots]
  simp only [show cfgShort.slotDuration = 30 from rfl, happt,
    AppointmentManager.bookedSlots, hpdt, hmark, hmod]
  simp only [show parseClock "09:00" = some 540 from rfl,
    show parseClock "11:30" = some 690 from rfl]
  show Except.ok (AppointmentManager.genAvail 30 690 ([555] ++ []) 540) = _
  simp [AppointmentManager.genAvail]

/-- Concrete run: Monday 09:00–11:30, slot 30, one appointment at 10:00 for
30 minutes: the 10:00 grid slot is removed. -/
theorem eval_slots_cfgShort_ex :
    Scheduler.get_available_slots cfgShort storeEx "2026-10-12" =
      .ok [540, 570, 630] := by
  have hpd : parseDate "2026-10-12" = some ⟨2026, 10, 12⟩ := rfl
  have hw : weekdayOf ⟨2026, 10, 12⟩ = .monday := rfl
  have hpdt : parseDateTime "2026-10-12" "10:00" = some (⟨2026, 10, 12⟩, 600) := rfl
  have hbh : Scheduler.get_business_hours cfgShort .monday = ("09:00", "11:30") := rfl
  have happt : AppointmentManager.get_appointments_by_date storeEx "2026-10-12" =
      [⟨"2026-10-12", "10:00", 30, "pending"⟩] := rfl
  have hmark : AppointmentManager.markSlots 30 (toOrdinal ⟨2026, 10, 12⟩ * 1440 + 600)
      (toOrdinal ⟨2026, 10, 12⟩ * 1440 + 600 + 30) =
      [(toOrdinal ⟨2026, 10, 12⟩ * 1440 + 600) % 1440] := by
    rw [AppointmentManager.markSlots, dif_pos ⟨by omega, by omega⟩,
        AppointmentManager.markSlots, dif_neg (by omega)]
  have hmod : (toOrdinal ⟨2026, 10, 12⟩ * 1440 + 600) % 1440 = 600 := by omega
  simp only [Scheduler.get_available_slots, hpd, hw, hbh]
  rw [if_neg (by decide)]
  rw [AppointmentManager.get_available_slots]
  simp only [show cfgShort.slotDuration = 30 from rfl, happt,
    AppointmentManager.bookedSlots, hpdt, hmark, hmod]
  simp only [show parseClock "09:00" = some 540 from rfl,
    show parseClock "11:30" = some 690 from rfl]
  show Except.ok (AppointmentManager.genAvail 30 690 ([600] ++ []) 540) = _
  simp [AppointmentManager.genAvail]

/-- C5: on a business day whose configured hours parse as `o`/`c`, with a
positive slot duration and parseable stored appointments, every slot the
scheduler returns has the form `o + k · slot_duration`, satisfies `o ≤ t`
and `t + 60 ≤ c` (the fixed 60-minute engine minimum, independent of the
service catalog), and the returned sequence is strictly ascending. -/
theorem claim_C5_slot_grid (cfg : Config) (store : Store) (dateStr : String)
    (d : PDate) (o c : Nat)
    (hsd : 0 < cfg.slotDuration)
    (hd : parseDate dateStr = some d)
    (hb : Scheduler.is_business_day cfg (weekdayOf d) = true)
    (ho : parseClock (Scheduler.get_business_hours cfg (weekdayOf d)).1 = some o)
    (hc : parseClock (Scheduler.get_business_hours cfg (weekdayOf d)).2 = some c)
    (hl : ∀ a ∈ AppointmentManager.get_appointments_by_date store dateStr,
            (parseDateTime a.date a.time).isSome) :
    ∃ l, Scheduler.get_available_slots cfg store dateStr = .ok l ∧
      (∀ t ∈ l, (∃ k, t = o + k * cfg.slotDuration) ∧ o ≤ t ∧ t + 60 ≤ c) ∧
      List.Sorted (· < ·) l := by
  obtain ⟨l, hel, hmem⟩ :=
    Scheduler.get_available_slots_spec cfg store dateStr d o c hsd hd hb ho hc hl
  refine ⟨l, hel, fun t ht => ?_,
    Scheduler.get_available_slots_ok_sorted cfg store dateStr l hel⟩
  obtain ⟨⟨k, rfl, hcl⟩, -⟩ := (hmem _).1 ht
  exact ⟨⟨k, rfl⟩, by omega, hcl⟩

theorem claim_C5_witness :
    Scheduler.get_available_slots cfgShort [] "2026-10-12" = .ok [540, 570, 600, 630] ∧
      List.Sorted (· < ·) [540, 570, 600, 630] := by
  obtain ⟨l, hel, -, hsort⟩ := claim_C5_slot_grid cfgShort [] "2026-10-12"
    ⟨2026, 10, 12⟩ 540 690 (by decide) (by decide) (by decide) (by decide) (by decide)
    (by intro a ha; cases ha)
  have hval := eval_slots_cfgShort_empty.symm.trans hel
  injection hval with hval
  rw [← hval] at hsort
  exact ⟨eval_slots_cfgShort_empty, hsort⟩

/-- C4 (counterexample to the covered-interval exclusion): with Monday
hours 09:00–11:30, slot 30 and a single pending appointment 09:15–09:45,
the grid slot 09:30 (570) lies inside the appointment's half-open interval
`[09:15, 09:45)`, yet it is returned as free: the marking loop strides from
the appointment's own (off-grid) start, so its marks never hit the grid. -/
theorem claim_C4_counterexample :
    ((570 : Nat) = 540 + 1 * 30 ∧ 570 + 60 ≤ 690) ∧
    (∃ a ∈ AppointmentManager.get_appointments_by_date storeMis "2026-10-12",
      ∃ p, parseDateTime a.date a.time = some p ∧ p.2 ≤ 570 ∧ 570 < p.2 + a.duration) ∧
    Scheduler.get_available_slots cfgShort storeMis "2026-10-12" =
      Except.ok [540, 570, 600, 630] ∧
    (570 : Nat) ∈ [540, 570, 600, 630] := by
  refine ⟨by decide,
    ⟨⟨"2026-10-12", "09:15", 30, "pending"⟩, by decide, (⟨2026, 10, 12⟩, 555),
      rfl, by decide, by decide⟩,
    eval_slots_cfgShort_mis, by decide⟩

/-- C4 (amended): a grid slot `t` is excluded from the free slots iff `t`
equals one of an appointment's stride marks
`(appt_start + k · slot_duration) mod 24h` with `k · slot_duration <
appt_duration` — the grid slots inside `[appt_start, appt_end)` exactly when
the appointment starts on the grid, but only stride-aligned times (possibly
none) when it does not. -/
theorem claim_C4_amended_slot_exclusion (cfg : Config) (store : Store) (dateStr : String)
    (d : PDate) (o c : Nat)
    (hsd : 0 < cfg.slotDuration)
    (hd : parseDate dateStr = some d)
    (hb : Scheduler.is_business_day cfg (weekdayOf d) = true)
    (ho : parseClock (Scheduler.get_business_hours cfg (weekdayOf d)).1 = some o)
    (hc : parseClock (Scheduler.get_business_hours cfg (weekdayOf d)).2 = some c)
    (hl : ∀ a ∈ AppointmentManager.get_appointments_by_date store dateStr,
            (parseDateTime a.date a.time).isSome) :
    ∃ l, Scheduler.get_available_slots cfg store dateStr = .ok l ∧
      ∀ t, (∃ k, t = o + k * cfg.slotDuration ∧ t + 60 ≤ c) →
        (t ∉ l ↔ ∃ a ∈ AppointmentManager.get_appointments_by_date store dateStr,
          ∃ p, parseDateTime a.date a.time = some p ∧
            ∃ k, k * cfg.slotDuration < a.duration ∧
              t = (toOrdinal p.1 * 1440 + p.2 + k * cfg.slotDuration) % 1440) := by
  obtain ⟨l, hel, hmem⟩ :=
    Scheduler.get_available_slots_spec cfg store dateStr d o c hsd hd hb ho hc hl
  refine ⟨l, hel, fun t hgrid => ?_⟩
  obtain ⟨k, hk, hcl⟩ := hgrid
  constructor
  · intro hnot
    by_contra hcov
    exact hnot ((hmem t).2 ⟨⟨k, hk, hcl⟩, hcov⟩)
  · intro hcov htl
    exact ((hmem t).1 htl).2 hcov

theorem claim_C4_amended_witness :
    ∃ l, Scheduler.get_available_slots cfgShort storeMis "2026-10-12" = Except.ok l ∧
      ((570 : Nat) ∉ l ↔ ∃ a ∈ AppointmentManager.get_appointments_by_date storeMis "2026-10-12",
        ∃ p, parseDateTime a.date a.time = some p ∧
          ∃ k, k * cfgShort.slotDuration < a.duration ∧
            570 = (toOrdinal p.1 * 1440 + p.2 + k * cfgShort.slotDuration) % 1440) := by
  obtain ⟨l, hel, hiff⟩ := claim_C4_amended_slot_exclusion cfgShort storeMis "2026-10-12"
    ⟨2026, 10, 12⟩ 540 690 (by decide) (by decide) (by decide) (by decide) (by decide)
    (by decide)
  exact ⟨l, hel, hiff 570 ⟨1, by decide, by decide⟩⟩

/-- C6: for a request whose exact time is itself free the suggestion list is
that single time; otherwise it is the first `count` elements of a
permutation of the free slots ordered by absolute minute distance from the
requested time, ties broken chronologically (Python's stable in-place sort
by the distance key). -/
theorem claim_C6_alternative_suggestions (cfg : Config) (store : Store)
    (dateStr : String) (t count : Nat) (slots : List Nat)
    (hs : Scheduler.get_available_slots cfg store dateStr = .ok slots) :
    (t ∈ slots →
      Scheduler.suggest_alternative_times cfg store dateStr t count = .ok [t]) ∧
    (t ∉ slots → ∃ l' : List Nat, List.Perm l' slots ∧
      l'.Pairwise (fun a b => Scheduler.slot_distance t a < Scheduler.slot_distance t b ∨
        (Scheduler.slot_distance t a = Scheduler.slot_distance t b ∧ a < b)) ∧
      Scheduler.suggest_alternative_times cfg store dateStr t count =
        .ok (l'.take count)) := by
  have hsorted : slots.Pairwise (· < ·) :=
    Scheduler.get_available_slots_ok_sorted cfg store dateStr slots hs
  constructor
  · intro ht
    rw [Scheduler.suggest_alternative_times]
    simp only [hs]
    show (if t ∈ slots then Except.ok [t] else _) = _
    rw [if_pos ht]
  · intro ht
    refine ⟨slots.insertionSort
        (fun a b => Scheduler.slot_distance t a ≤ Scheduler.slot_distance t b),
      List.perm_insertionSort _ slots,
      insertionSort_keyLex (Scheduler.slot_distance t) slots hsorted, ?_⟩
    rw [Scheduler.suggest_alternative_times]
    simp only [hs]
    show (if t ∈ slots then Except.ok [t] else _) = _
    rw [if_neg ht]

theorem claim_C6_witness :
    Scheduler.suggest_alternative_times cfgShort storeEx "2026-10-12" 600 3 =
      .ok [570, 630, 540] := by
  have h := (claim_C6_alternative_suggestions cfgShort storeEx "2026-10-12" 600 3
    [540, 570, 630] eval_slots_cfgShort_ex).2 (by decide)
  rw [Scheduler.suggest_alternative_times]
  simp only [eval_slots_cfgShort_ex]
  show (if (600 : Nat) ∈ [540, 570, 630] then Except.ok [600]
    else Except.ok (([540, 570, 630].insertionSort
      (fun a b => Scheduler.slot_distance 600 a ≤ Scheduler.slot_distance 600 b)).take 3)) = _
  rw [if_neg (by decide)]
  rfl

/-- C9: over a horizon of `n` days, `get_available_dates` returns normally
exactly the dates among `now + 1, …, now + n` days (today excluded) that are
business days with a non-empty free-slot list; the returned date strings are
in chronological order, and a non-business day always has an empty
free-slot list. -/
theorem claim_C9_available_dates (cfg : Config) (store : Store) (now : PDate) (n : Nat)
    (hcfg : ∀ w : Weekday, (parseClock (Scheduler.get_business_hours cfg w).1).isSome ∧
      (parseClock (Scheduler.get_business_hours cfg w).2).isSome)
    (hstore : ∀ a ∈ store, (parseDateTime a.date a.time).isSome)
    (hval : ∀ k, k ≤ n → (addDays now k).Valid) :
    ∃ l, Scheduler.get_available_dates cfg store now n = .ok l ∧
      (∀ s, s ∈ l ↔ ∃ i, 1 ≤ i ∧ i ≤ n ∧ s = dateToStr (addDays now i) ∧
        Scheduler.is_business_day cfg (weekdayOf (addDays now i)) = true ∧
        ∃ sl, Scheduler.get_available_slots cfg store (dateToStr (addDays now i)) =
          .ok sl ∧ sl ≠ []) ∧
      l.Pairwise (fun s1 s2 => ∃ d1 d2, parseDate s1 = some d1 ∧
        parseDate s2 = some d2 ∧ dval d1 < dval d2) ∧
      (∀ (ds : String) (d : PDate), parseDate ds = some d →
        Scheduler.is_business_day cfg (weekdayOf d) = false →
        Scheduler.get_available_slots cfg store ds = .ok []) := by
  have hADF := Scheduler.availableDatesFrom_ok cfg store now hcfg hstore n 0
  simp only [Nat.zero_add] at hADF
  refine ⟨_, by rw [Scheduler.get_available_dates]; exact hADF, ?_, ?_, ?_⟩
  · intro s
    simp only [List.mem_filterMap, List.mem_range]
    constructor
    · rintro ⟨j, hj, hfj⟩
      by_cases hcond : (Scheduler.is_business_day cfg (weekdayOf (addDays now (j + 1))) = true ∧
          Scheduler.okSlots cfg store (dateToStr (addDays now (j + 1))) ≠ [])
      · rw [if_pos hcond] at hfj
        obtain ⟨hbz, hne⟩ := hcond
        injection hfj with hfj
        obtain ⟨sl, hsl⟩ := Scheduler.get_available_slots_total cfg store hcfg hstore
          (dateToStr (addDays now (j + 1)))
        have hok : Scheduler.okSlots cfg store (dateToStr (addDays now (j + 1))) = sl := by
          rw [Scheduler.okSlots, hsl]
        rw [hok] at hne
        exact ⟨j + 1, by omega, by omega, hfj.symm, hbz, sl, hsl, hne⟩
      · rw [if_neg hcond] at hfj
        exact Option.noConfusion hfj
    · rintro ⟨i, hi1, hi2, rfl, hbz, sl, hsl, hne⟩
      refine ⟨i - 1, by omega, ?_⟩
      have hi : i - 1 + 1 = i := by omega
      rw [hi]
      have hok : Scheduler.okSlots cfg store (dateToStr (addDays now i)) = sl := by
        rw [Scheduler.okSlots, hsl]
      rw [if_pos ⟨hbz, by rw [hok]; exact hne⟩]
  · rw [List.pairwise_filterMap]
    rw [List.pairwise_iff_getElem]
    intro i j hi hj hij
    rw [List.length_range] at hi hj
    simp only [List.getElem_range]
    intro s1 hs1 s2 hs2
    have hval1 : (addDays now (i + 1)).Valid := hval (i + 1) (by omega)
    have hval2 : (addDays now (j + 1)).Valid := hval (j + 1) (by omega)
    have hget1 : s1 = dateToStr (addDays now (i + 1)) := by
      by_cases hcond : (Scheduler.is_business_day cfg (weekdayOf (addDays now (i + 1))) = true ∧
          Scheduler.okSlots cfg store (dateToStr (addDays now (i + 1))) ≠ [])
      · rw [Option.mem_def, if_pos hcond] at hs1
        injection hs1 with hs1
        exact hs1.symm
      · rw [Option.mem_def, if_neg hcond] at hs1
        exact Option.noConfusion hs1
    have hget2 : s2 = dateToStr (addDays now (j + 1)) := by
      by_cases hcond : (Scheduler.is_business_day cfg (weekdayOf (addDays now (j + 1))) = true ∧
          Scheduler.okSlots cfg store (dateToStr (addDays now (j + 1))) ≠ [])
      · rw [Option.mem_def, if_pos hcond] at hs2
        injection hs2 with hs2
        exact hs2.symm
      · rw [Option.mem_def, if_neg hcond] at hs2
        exact Option.noConfusion hs2
    refine ⟨addDays now (i + 1), addDays now (j + 1), ?_, ?_, ?_⟩
    · rw [hget1]
      exact parseDate_dateToStr _ hval1
    · rw [hget2]
      exact parseDate_dateToStr _ hval2
    · exact dval_addDays_strict now (j + 1) (i + 1) (by omega)
        (fun k hk1 hk2 => hval k (by omega))
  · intro ds d hparse hbiz
    rw [Scheduler.get_available_slots]
    simp only [hparse]
    rw [if_pos (by simp [hbiz])]

/-- Concrete run: every day open 09:00–10:00 under `cfgTiny` gives the
single slot 09:00 on 2026-10-13. -/
theorem eval_slots_cfgTiny_13 :
    Scheduler.get_available_slots cfgTiny [] "2026-10-13" = .ok [540] := by
  have hpd : parseDate "2026-10-13" = some ⟨2026, 10, 13⟩ := rfl
  simp only [Scheduler.get_available_slots, hpd,
    show Scheduler.get_business_hours cfgTiny (weekdayOf ⟨2026, 10, 13⟩) =
      ("09:00", "10:00") from rfl]
  rw [if_neg (by decide)]
  rw [AppointmentManager.get_available_slots]
  simp only [show AppointmentManager.get_appointments_by_date [] "2026-10-13" = [] from rfl,
    AppointmentManager.bookedSlots,
    show parseClock "09:00" = some 540 from rfl, show parseClock "10:00" = some 600 from rfl,
    show cfgTiny.slotDuration = 30 from rfl]
  show Except.ok (AppointmentManager.genAvail 30 600 [] 540) = _
  simp [AppointmentManager.genAvail]

/-- Concrete run: the single slot 09:00 on 2026-10-14 under `cfgTiny`. -/
theorem eval_slots_cfgTiny_14 :
    Scheduler.get_available_slots cfgTiny [] "2026-10-14" = .ok [540] := by
  have hpd : parseDate "2026-10-14" = some ⟨2026, 10, 14⟩ := rfl
  simp only [Scheduler.get_available_slots, hpd,
    show Scheduler.get_business_hours cfgTiny (weekdayOf ⟨2026, 10, 14⟩) =
      ("09:00", "10:00") from rfl]
  rw [if_neg (by decide)]
  rw [AppointmentManager.get_available_slots]
  simp only [show AppointmentManager.get_appointments_by_date [] "2026-10-14" = [] from rfl,
    AppointmentManager.bookedSlots,
    show parseClock "09:00" = some 540 from rfl, show parseClock "10:00" = some 600 from rfl,
    show cfgTiny.slotDuration = 30 from rfl]
  show Except.ok (AppointmentManager.genAvail 30 600 [] 540) = _
  simp [AppointmentManager.genAvail]

theorem claim_C9_witness :
    Scheduler.get_available_dates cfgTiny [] ⟨2026, 10, 12⟩ 2 =
      .ok ["2026-10-13", "2026-10-14"] := by
  have h := claim_C9_available_dates cfgTiny [] ⟨2026, 10, 12⟩ 2
    (by intro w; cases w <;> exact ⟨by decide, by decide⟩)
    (by intro a ha; cases ha)
    (by intro k hk; interval_cases k <;> decide)
  have hADF := Scheduler.availableDatesFrom_ok cfgTiny [] ⟨2026, 10, 12⟩
    (by intro w; cases w <;> exact ⟨by decide, by decide⟩)
    (by intro a ha; cases ha) 2 0
  rw [Scheduler.get_available_dates, hADF]
  have hok1 : Scheduler.okSlots cfgTiny [] (dateToStr (addDays ⟨2026, 10, 12⟩ (0 + 0 + 1))) =
      [540] := by
    rw [show dateToStr (addDays ⟨2026, 10, 12⟩ (0 + 0 + 1)) = "2026-10-13" from rfl,
      Scheduler.okSlots, eval_slots_cfgTiny_13]
  have hok2 : Scheduler.okSlots cfgTiny [] (dateToStr (addDays ⟨2026, 10, 12⟩ (0 + 1 + 1))) =
      [540] := by
    rw [show dateToStr (addDays ⟨2026, 10, 12⟩ (0 + 1 + 1)) = "2026-10-14" from rfl,
      Scheduler.okSlots, eval_slots_cfgTiny_14]
  rw [show List.range 2 = [0, 1] from rfl]
  rw [List.filterMap_cons, List.filterMap_cons, List.filterMap_nil]
  rw [if_pos ⟨by decide, by rw [hok1]; decide⟩, if_pos ⟨by decide, by rw [hok2]; decide⟩]
  rfl
